import Mathlib

/-!
Verification development for the Expense-Split-Tracker service (Go).

The repository works with shopspring/decimal fixed-point decimals. Decimal
values are rationals with finite decimal expansion; Add, Sub, Mul, Neg and
Abs are exact, comparisons are numeric, Round(p) rounds half away from zero
to p decimal places, and Div rounds the exact quotient half away from zero
to DivisionPrecision = 16 decimal places. We model decimals as rationals
with those operations.

The service layer is modelled as pure functions: repository lookups
(IsValidUUID, userRepo.GetByUUID success, groupRepo.IsMember) become boolean
oracles in an Env, the user_balances table becomes a list of records, and
the balance mutations become functions on that list. Users are identified
by their UUID strings; infrastructure failures (database errors) are not
modelled, matching the happy-path behaviour the claims are about.
-/

namespace ExpenseTracker

attribute [local semireducible] Rat.mul Rat.add Rat.sub Rat.inv Rat.ofScientific

/-! ## Decimal arithmetic (shopspring/decimal semantics) -/

/-- Floor of a rational, computed on the reduced numerator and denominator
so that concrete values evaluate by kernel reduction. -/
def qfloor (x : ℚ) : ℤ :=
  x.num.fdiv (x.den : ℤ)

/-- Rounding half away from zero to an integer, as shopspring Round and
DivRound do on the last kept digit. -/
def roundAway (x : ℚ) : ℤ :=
  if 0 ≤ x then qfloor (x + 1 / 2) else -(qfloor (-x + 1 / 2))

/-- shopspring Decimal.Round(p): round half away from zero to p decimal
places. -/
def roundTo (p : ℕ) (x : ℚ) : ℚ :=
  (roundAway (x * 10 ^ p) : ℚ) / 10 ^ p

/-- shopspring Decimal.Div: the exact quotient rounded half away from zero
to DivisionPrecision = 16 decimal places. -/
def divD (x y : ℚ) : ℚ :=
  roundTo 16 (x / y)

/-! ## Error model (pkg/errors) -/

/-- Application errors from pkg/errors, identified by their constructor and
payload. The insufficient-fund payload carries the decimals that the Go code
renders to strings (available balance and required amount). -/
inductive AppError where
  | validationError (message : String)
  | requiredFieldError (field : String)
  | invalidValueError (field value : String)
  | notFoundError (resource : String)
  | alreadyExistsError (resource : String)
  | insufficientFundError (available required : ℚ)
  | invalidSplitError (message : String)
deriving DecidableEq

instance {ε α : Type} [DecidableEq ε] [DecidableEq α] : DecidableEq (Except ε α) := fun a b =>
  match a, b with
  | .ok x, .ok y =>
    if h : x = y then .isTrue (by rw [h]) else .isFalse (by simp [h])
  | .ok _, .error _ => .isFalse (by simp)
  | .error _, .ok _ => .isFalse (by simp)
  | .error x, .error y =>
    if h : x = y then .isTrue (by rw [h]) else .isFalse (by simp [h])

/-! ## Validation utilities (internal/utils) -/

/-- utils.ValidateAmount: positive and at most 999999999.99. -/
def validateAmount (amount : ℚ) : Option AppError :=
  if amount ≤ 0 then some (.validationError "Amount must be greater than zero")
  else if amount > 999999999.99 then some (.validationError "Amount is too large")
  else none

/-- utils.SupportedCurrencies. -/
def supportedCurrencies : List String :=
  ["USD", "EUR", "GBP", "JPY", "CAD", "AUD", "CHF", "CNY", "INR"]

/-- ASCII uppercase of one character, modelling what strings.ToUpper does
on the ASCII currency codes this service handles. -/
def charUpper (c : Char) : Char :=
  if 'a' ≤ c ∧ c ≤ 'z' then Char.ofNat (c.toNat - 32) else c

/-- strings.ToUpper restricted to ASCII strings. -/
def strUpper (s : String) : String :=
  ⟨s.data.map charUpper⟩

/-- utils.ValidateCurrency: the uppercased code must be supported. -/
def validateCurrency (currency : String) : Option AppError :=
  let c := strUpper currency
  if supportedCurrencies.contains c then none
  else some (.invalidValueError "currency" c)

/-! ## Requests, splits and the repository environment -/

/-- models.CreateExpenseSplitRequest. -/
structure CreateExpenseSplitRequest where
  userUUID : String
  amount : ℚ
  percentage : ℚ
deriving DecidableEq

/-- models.ExpenseSplit restricted to the fields the service computes:
user, owed amount, and the percentage used (zero unless the split is
percentage-based). -/
structure ExpenseSplit where
  userUUID : String
  amount : ℚ
  percentage : ℚ
deriving DecidableEq

/-- Boolean oracles standing for the repository collaborators of the
service layer, for one fixed group: utils.IsValidUUID, success of
userRepo.GetByUUID, existence of the group, and groupRepo.IsMember of the
resolved user in the group. -/
structure Env where
  validUUID : String → Bool
  userExists : String → Bool
  groupExists : String → Bool
  isMember : String → Bool

/-- Environment in which every identifier is valid, every user and group
resolves, and every user is a member of the group. -/
def envTrue : Env :=
  ⟨fun _ => true, fun _ => true, fun _ => true, fun _ => true⟩

/-! ## Split calculators (internal/service/expense_service.go) -/

/-- Loop body of calculateEqualSplits: per split, check the user UUID, the
user lookup and group membership in source order; assign amountPerUser to
every participant except the last, who gets the total minus everything
already assigned. -/
def equalSplitsLoop (env : Env) (total amountPerUser : ℚ) :
    List CreateExpenseSplitRequest → ℚ → Except AppError (List ExpenseSplit)
  | [], _ => .ok []
  | s :: rest, totalAssigned =>
    if ¬ env.validUUID s.userUUID then
      .error (.invalidValueError "user_uuid" s.userUUID)
    else if ¬ env.userExists s.userUUID then
      .error (.notFoundError "User")
    else if ¬ env.isMember s.userUUID then
      .error (.validationError "All users in split must be members of the group")
    else
      let amount := if rest = [] then total - totalAssigned else amountPerUser
      match equalSplitsLoop env total amountPerUser rest (totalAssigned + amount) with
      | .error e => .error e
      | .ok l => .ok (⟨s.userUUID, amount, 0⟩ :: l)

/-- calculateEqualSplits: amountPerUser is Amount.Div(splitCount).Round(2). -/
def calculateEqualSplits (env : Env) (total : ℚ)
    (splits : List CreateExpenseSplitRequest) : Except AppError (List ExpenseSplit) :=
  equalSplitsLoop env total (roundTo 2 (divD total (splits.length : ℚ))) splits 0

/-- Loop body of calculateExactSplits: per split, check the user UUID, that
the supplied amount is strictly positive, the user lookup and group
membership, in source order; accumulate the splits and their running sum. -/
def exactSplitsLoop (env : Env) :
    List CreateExpenseSplitRequest → Except AppError (List ExpenseSplit × ℚ)
  | [] => .ok ([], 0)
  | s :: rest =>
    if ¬ env.validUUID s.userUUID then
      .error (.invalidValueError "user_uuid" s.userUUID)
    else if s.amount ≤ 0 then
      .error (.validationError "Split amounts must be greater than zero")
    else if ¬ env.userExists s.userUUID then
      .error (.notFoundError "User")
    else if ¬ env.isMember s.userUUID then
      .error (.validationError "All users in split must be members of the group")
    else
      match exactSplitsLoop env rest with
      | .error e => .error e
      | .ok (l, t) => .ok (⟨s.userUUID, s.amount, 0⟩ :: l, s.amount + t)

/-- calculateExactSplits: after the loop, the accumulated split sum must
equal the declared total exactly or the request fails with
InvalidSplitError. -/
def calculateExactSplits (env : Env) (total : ℚ)
    (splits : List CreateExpenseSplitRequest) : Except AppError (List ExpenseSplit) :=
  match exactSplitsLoop env splits with
  | .error e => .error e
  | .ok (l, totalSplitAmount) =>
    if totalSplitAmount = total then .ok l
    else .error (.invalidSplitError "Sum of split amounts must equal total expense amount")

/-- Loop body of calculatePercentageSplits: per split, check the user UUID,
utils.ValidatePercentage (nonnegative and at most 100), the user lookup and
group membership, in source order; the owed amount is
Amount.Mul(Percentage).Div(100).Round(2). -/
def percentageSplitsLoop (env : Env) (total : ℚ) :
    List CreateExpenseSplitRequest → Except AppError (List ExpenseSplit × ℚ)
  | [] => .ok ([], 0)
  | s :: rest =>
    if ¬ env.validUUID s.userUUID then
      .error (.invalidValueError "user_uuid" s.userUUID)
    else if s.percentage < 0 then
      .error (.validationError "Percentage cannot be negative")
    else if 100 < s.percentage then
      .error (.validationError "Percentage cannot be greater than 100")
    else if ¬ env.userExists s.userUUID then
      .error (.notFoundError "User")
    else if ¬ env.isMember s.userUUID then
      .error (.validationError "All users in split must be members of the group")
    else
      let amount := roundTo 2 (divD (total * s.percentage) 100)
      match percentageSplitsLoop env total rest with
      | .error e => .error e
      | .ok (l, t) => .ok (⟨s.userUUID, amount, s.percentage⟩ :: l, s.percentage + t)

/-- calculatePercentageSplits: after the loop, the accumulated percentages
must sum to exactly 100 or the request fails with InvalidSplitError. The
computed amounts are never corrected to make their sum match the total. -/
def calculatePercentageSplits (env : Env) (total : ℚ)
    (splits : List CreateExpenseSplitRequest) : Except AppError (List ExpenseSplit) :=
  match percentageSplitsLoop env total splits with
  | .error e => .error e
  | .ok (l, totalPercentage) =>
    if totalPercentage = 100 then .ok l
    else .error (.invalidSplitError "Percentages must sum to 100")

/-- validateAndCalculateSplits: at least one split, then dispatch on the
split type string; an unknown type is an invalid-value error. -/
def validateAndCalculateSplits (env : Env) (splitType : String) (total : ℚ)
    (splits : List CreateExpenseSplitRequest) : Except AppError (List ExpenseSplit) :=
  if splits.length = 0 then .error (.validationError "At least one split is required")
  else if splitType = "equal" then calculateEqualSplits env total splits
  else if splitType = "exact" then calculateExactSplits env total splits
  else if splitType = "percentage" then calculatePercentageSplits env total splits
  else .error (.invalidValueError "split_type" splitType)

/-! ## Helper lemmas about the split-calculator loops -/

/-- When every participant passes the UUID, lookup and membership checks,
the equal-split loop succeeds, keeps the participant order, assigns the
rounded per-user amount to all but the last participant, and assigns the
total minus everything already assigned to the last one. -/
theorem equalSplitsLoop_ok (env : Env) (total r : ℚ) :
    ∀ (splits : List CreateExpenseSplitRequest) (assigned : ℚ),
      splits ≠ [] →
      (∀ s ∈ splits, env.validUUID s.userUUID = true ∧ env.userExists s.userUUID = true ∧
        env.isMember s.userUUID = true) →
      ∃ l, equalSplitsLoop env total r splits assigned = .ok l ∧
        l.map ExpenseSplit.userUUID = splits.map CreateExpenseSplitRequest.userUUID ∧
        l.map ExpenseSplit.amount =
          List.replicate (splits.length - 1) r ++
            [total - assigned - ((splits.length - 1 : ℕ) : ℚ) * r] := by
  intro splits
  induction splits with
  | nil => intro _ h; exact absurd rfl h
  | cons s rest ih =>
    intro assigned _ hval
    obtain ⟨h1, h2, h3⟩ := hval s (List.mem_cons_self s rest)
    by_cases hrest : rest = []
    · subst hrest
      refine ⟨[⟨s.userUUID, total - assigned, 0⟩], ?_, by simp, by simp⟩
      simp [equalSplitsLoop, h1, h2, h3]
    · obtain ⟨l', hl', hu', ha'⟩ := ih (assigned + r) hrest
        (fun t ht => hval t (List.mem_cons_of_mem s ht))
      refine ⟨⟨s.userUUID, r, 0⟩ :: l', ?_, by simp [hu'], ?_⟩
      · simp only [equalSplitsLoop, h1, h2, h3, hrest, if_false]
        simp [hl']
      · obtain ⟨m, hm⟩ : ∃ m, rest.length = m + 1 :=
          ⟨rest.length - 1, (Nat.succ_pred_eq_of_pos (List.length_pos.mpr hrest)).symm⟩
        have harith : total - (assigned + r) - ((m : ℕ) : ℚ) * r =
            total - assigned - ((m + 1 : ℕ) : ℚ) * r := by
          push_cast
          ring
        simp only [List.map_cons, ha', List.length_cons, hm, Nat.add_sub_cancel,
          List.replicate_succ, List.cons_append]
        rw [harith]

/-- If the equal-split loop returns ok, the returned amounts sum to the
total minus what was already assigned, whatever the environment says. -/
theorem equalSplitsLoop_sum (env : Env) (total r : ℚ) :
    ∀ (splits : List CreateExpenseSplitRequest) (assigned : ℚ) (l : List ExpenseSplit),
      splits ≠ [] →
      equalSplitsLoop env total r splits assigned = .ok l →
      (l.map ExpenseSplit.amount).sum = total - assigned := by
  intro splits
  induction splits with
  | nil => intro _ _ h; exact absurd rfl h
  | cons s rest ih =>
    intro assigned l _ hok
    by_cases h1 : env.validUUID s.userUUID
    · by_cases h2 : env.userExists s.userUUID
      · by_cases h3 : env.isMember s.userUUID
        · by_cases hrest : rest = []
          · subst hrest
            simp [equalSplitsLoop, h1, h2, h3] at hok
            subst hok
            simp
          · simp only [equalSplitsLoop, h1, h2, h3, hrest, not_true, if_false,
              ite_false] at hok
            rcases hrec : equalSplitsLoop env total r rest (assigned + r) with e | l'
            · rw [hrec] at hok; cases hok
            · rw [hrec] at hok
              cases hok
              have := ih (assigned + r) l' hrest hrec
              simp [this]
              ring
        · simp [equalSplitsLoop, h1, h2, h3] at hok
      · simp [equalSplitsLoop, h1, h2] at hok
    · simp [equalSplitsLoop, h1] at hok

/-- When every participant passes the UUID, positive-amount, lookup and
membership checks, the exact-split loop returns the supplied amounts in
order together with their sum. -/
theorem exactSplitsLoop_ok (env : Env) :
    ∀ splits : List CreateExpenseSplitRequest,
      (∀ s ∈ splits, env.validUUID s.userUUID = true ∧ ¬ s.amount ≤ 0 ∧
        env.userExists s.userUUID = true ∧ env.isMember s.userUUID = true) →
      exactSplitsLoop env splits =
        .ok (splits.map (fun s => ⟨s.userUUID, s.amount, 0⟩),
          (splits.map CreateExpenseSplitRequest.amount).sum) := by
  intro splits
  induction splits with
  | nil => intro _; simp [exactSplitsLoop]
  | cons s rest ih =>
    intro hval
    obtain ⟨h1, h2, h3, h4⟩ := hval s (List.mem_cons_self s rest)
    simp [exactSplitsLoop, h1, h2, h3, h4,
      ih (fun t ht => hval t (List.mem_cons_of_mem s ht))]

/-- If the exact-split loop returns ok, the returned amounts sum to the
accumulated total it returns. -/
theorem exactSplitsLoop_sum (env : Env) :
    ∀ (splits : List CreateExpenseSplitRequest) (l : List ExpenseSplit) (t : ℚ),
      exactSplitsLoop env splits = .ok (l, t) →
      (l.map ExpenseSplit.amount).sum = t := by
  intro splits
  induction splits with
  | nil =>
    intro l t h
    simp [exactSplitsLoop] at h
    simp [h.1, ← h.2]
  | cons s rest ih =>
    intro l t h
    by_cases h1 : env.validUUID s.userUUID
    · by_cases h2 : s.amount ≤ 0
      · simp [exactSplitsLoop, h1, h2] at h
      · by_cases h3 : env.userExists s.userUUID
        · by_cases h4 : env.isMember s.userUUID
          · simp only [exactSplitsLoop, h1, h2, h3, h4, not_true, not_false_eq_true,
              if_false, if_true, ite_true, ite_false] at h
            rcases hrec : exactSplitsLoop env rest with e | p
            · rw [hrec] at h; cases h
            · rw [hrec] at h
              obtain ⟨l', t'⟩ := p
              cases h
              simp [ih l' t' hrec]
          · simp [exactSplitsLoop, h1, h2, h3, h4] at h
        · simp [exactSplitsLoop, h1, h2, h3] at h
    · simp [exactSplitsLoop, h1] at h

/-- When every participant passes the UUID, lookup and membership checks
but some supplied amount is zero or negative, the exact-split loop fails
with the positive-amount validation error. -/
theorem exactSplitsLoop_nonpositive (env : Env) :
    ∀ splits : List CreateExpenseSplitRequest,
      (∀ s ∈ splits, env.validUUID s.userUUID = true ∧ env.userExists s.userUUID = true ∧
        env.isMember s.userUUID = true) →
      (∃ s ∈ splits, s.amount ≤ 0) →
      exactSplitsLoop env splits =
        .error (.validationError "Split amounts must be greater than zero") := by
  intro splits
  induction splits with
  | nil => intro _ hbad; simp at hbad
  | cons s rest ih =>
    intro hval hbad
    obtain ⟨h1, h3, h4⟩ := hval s (List.mem_cons_self s rest)
    by_cases h2 : s.amount ≤ 0
    · simp [exactSplitsLoop, h1, h2]
    · obtain ⟨t, ht, hta⟩ := hbad
      rcases List.mem_cons.mp ht with rfl | ht'
      · exact absurd hta h2
      · have := ih (fun u hu => hval u (List.mem_cons_of_mem s hu)) ⟨t, ht', hta⟩
        simp [exactSplitsLoop, h1, h2, h3, h4, this]

/-- When every participant passes the UUID, percentage-range, lookup and
membership checks, the percentage-split loop returns a split per
participant whose amount is Amount.Mul(Percentage).Div(100).Round(2),
together with the percentage sum. -/
theorem percentageSplitsLoop_ok (env : Env) (total : ℚ) :
    ∀ splits : List CreateExpenseSplitRequest,
      (∀ s ∈ splits, env.validUUID s.userUUID = true ∧ 0 ≤ s.percentage ∧
        s.percentage ≤ 100 ∧ env.userExists s.userUUID = true ∧
        env.isMember s.userUUID = true) →
      percentageSplitsLoop env total splits =
        .ok (splits.map (fun s =>
            ⟨s.userUUID, roundTo 2 (divD (total * s.percentage) 100), s.percentage⟩),
          (splits.map CreateExpenseSplitRequest.percentage).sum) := by
  intro splits
  induction splits with
  | nil => intro _; simp [percentageSplitsLoop]
  | cons s rest ih =>
    intro hval
    obtain ⟨h1, h2, h3, h4, h5⟩ := hval s (List.mem_cons_self s rest)
    simp [percentageSplitsLoop, h1, not_lt.mpr h2, not_lt.mpr h3, h4, h5,
      ih (fun t ht => hval t (List.mem_cons_of_mem s ht))]

/-! ## Claim theorems: split calculators -/

/-- C2: for an equal split over nonempty participants who all pass
validation, with a positive total, calculateEqualSplits succeeds, assigns
round(total / N, 2) to each of the first N-1 participants in order, assigns
the total minus the sum of the already-assigned amounts to the last
participant, and the amounts sum to the total exactly. -/
theorem equal_split_spec (env : Env) (total : ℚ) (splits : List CreateExpenseSplitRequest)
    (hne : splits ≠ []) (hpos : 0 < total)
    (hval : ∀ s ∈ splits, env.validUUID s.userUUID = true ∧
      env.userExists s.userUUID = true ∧ env.isMember s.userUUID = true) :
    ∃ l, calculateEqualSplits env total splits = .ok l ∧
      l.map ExpenseSplit.userUUID = splits.map CreateExpenseSplitRequest.userUUID ∧
      l.map ExpenseSplit.amount =
        List.replicate (splits.length - 1) (roundTo 2 (divD total (splits.length : ℚ))) ++
          [total - ((splits.length - 1 : ℕ) : ℚ) *
            roundTo 2 (divD total (splits.length : ℚ))] ∧
      (l.map ExpenseSplit.amount).sum = total := by
  obtain ⟨l, hok, hu, ha⟩ :=
    equalSplitsLoop_ok env total (roundTo 2 (divD total (splits.length : ℚ))) splits 0 hne hval
  refine ⟨l, hok, hu, by simpa using ha, ?_⟩
  rw [ha]
  simp [List.sum_replicate, nsmul_eq_mul]

/-- C6: for an exact split over participants who all pass validation and
all supply strictly positive amounts, calculateExactSplits succeeds with
exactly the supplied amounts when they sum to the declared total, and fails
with InvalidSplitError when they do not. -/
theorem exact_split_spec (env : Env) (total : ℚ) (splits : List CreateExpenseSplitRequest)
    (hval : ∀ s ∈ splits, env.validUUID s.userUUID = true ∧
      env.userExists s.userUUID = true ∧ env.isMember s.userUUID = true)
    (hpos : ∀ s ∈ splits, 0 < s.amount) :
    ((splits.map CreateExpenseSplitRequest.amount).sum = total →
      calculateExactSplits env total splits =
        .ok (splits.map (fun s => ⟨s.userUUID, s.amount, 0⟩))) ∧
    ((splits.map CreateExpenseSplitRequest.amount).sum ≠ total →
      calculateExactSplits env total splits =
        .error (.invalidSplitError "Sum of split amounts must equal total expense amount")) := by
  have hloop := exactSplitsLoop_ok env splits (fun s hs =>
    ⟨(hval s hs).1, not_le.mpr (hpos s hs), (hval s hs).2.1, (hval s hs).2.2⟩)
  constructor
  · intro hsum
    simp [calculateExactSplits, hloop, hsum]
  · intro hsum
    simp [calculateExactSplits, hloop, hsum]

/-- C10: for an exact split over participants who all pass validation, a
zero or negative supplied amount makes calculateExactSplits fail with the
positive-amount ValidationError, never with an InvalidSplitError, even when
the supplied amounts sum to the declared total. -/
theorem exact_split_nonpositive_amount (env : Env) (total : ℚ)
    (splits : List CreateExpenseSplitRequest)
    (hval : ∀ s ∈ splits, env.validUUID s.userUUID = true ∧
      env.userExists s.userUUID = true ∧ env.isMember s.userUUID = true)
    (hbad : ∃ s ∈ splits, s.amount ≤ 0) :
    calculateExactSplits env total splits =
      .error (.validationError "Split amounts must be greater than zero") ∧
    ∀ msg, calculateExactSplits env total splits ≠ .error (.invalidSplitError msg) := by
  have hloop := exactSplitsLoop_nonpositive env splits hval hbad
  refine ⟨by simp [calculateExactSplits, hloop], ?_⟩
  intro msg
  simp [calculateExactSplits, hloop]

/-- C3: for a percentage split over participants who all pass validation
and whose percentages all lie in the closed interval from 0 to 100,
calculatePercentageSplits succeeds with owed amounts
round(total * percentage / 100, 2) and no remainder correction when the
percentages sum to exactly 100, and fails with InvalidSplitError when they
do not. -/
theorem percentage_split_spec (env : Env) (total : ℚ)
    (splits : List CreateExpenseSplitRequest)
    (hval : ∀ s ∈ splits, env.validUUID s.userUUID = true ∧
      env.userExists s.userUUID = true ∧ env.isMember s.userUUID = true)
    (hrange : ∀ s ∈ splits, 0 ≤ s.percentage ∧ s.percentage ≤ 100) :
    ((splits.map CreateExpenseSplitRequest.percentage).sum = 100 →
      calculatePercentageSplits env total splits =
        .ok (splits.map (fun s =>
          ⟨s.userUUID, roundTo 2 (divD (total * s.percentage) 100), s.percentage⟩))) ∧
    ((splits.map CreateExpenseSplitRequest.percentage).sum ≠ 100 →
      calculatePercentageSplits env total splits =
        .error (.invalidSplitError "Percentages must sum to 100")) := by
  have hloop := percentageSplitsLoop_ok env total splits (fun s hs =>
    ⟨(hval s hs).1, (hrange s hs).1, (hrange s hs).2, (hval s hs).2.1, (hval s hs).2.2⟩)
  constructor
  · intro hsum
    simp [calculatePercentageSplits, hloop, hsum]
  · intro hsum
    simp [calculatePercentageSplits, hloop, hsum]

/-! ## Concrete sample requests used to instantiate the theorems -/

/-- Three participants for an equal split. -/
def demoEqual : List CreateExpenseSplitRequest :=
  [⟨"u1", 0, 0⟩, ⟨"u2", 0, 0⟩, ⟨"u3", 0, 0⟩]

/-- Splits computed for demoEqual at total 90. -/
def demoEqualRes : List ExpenseSplit :=
  [⟨"u1", 30, 0⟩, ⟨"u2", 30, 0⟩, ⟨"u3", 30, 0⟩]

/-- Exact splits 60 and 40. -/
def demoExact : List CreateExpenseSplitRequest :=
  [⟨"u1", 60, 0⟩, ⟨"u2", 40, 0⟩]

/-- Exact splits that sum to 100 but contain a negative amount. -/
def demoExactBad : List CreateExpenseSplitRequest :=
  [⟨"u1", 150, 0⟩, ⟨"u2", -50, 0⟩]

/-- Percentage splits 60 and 40. -/
def demoPercent : List CreateExpenseSplitRequest :=
  [⟨"u1", 0, 60⟩, ⟨"u2", 0, 40⟩]

/-- Percentage splits 50 and 50, used with the one-cent total 1/100. -/
def demoPercentTiny : List CreateExpenseSplitRequest :=
  [⟨"u1", 0, 50⟩, ⟨"u2", 0, 50⟩]

/-- Witness for C2 at total 100 split equally among three members. -/
theorem equal_split_spec_witness :
    demoEqual ≠ [] ∧ (0 : ℚ) < 100 ∧
    (∃ l, calculateEqualSplits envTrue 100 demoEqual = .ok l ∧
      l.map ExpenseSplit.userUUID = demoEqual.map CreateExpenseSplitRequest.userUUID ∧
      l.map ExpenseSplit.amount =
        List.replicate (demoEqual.length - 1)
            (roundTo 2 (divD 100 (demoEqual.length : ℚ))) ++
          [100 - ((demoEqual.length - 1 : ℕ) : ℚ) *
            roundTo 2 (divD 100 (demoEqual.length : ℚ))] ∧
      (l.map ExpenseSplit.amount).sum = 100) :=
  ⟨by decide, by decide,
    equal_split_spec envTrue 100 demoEqual (by decide) (by decide) (by decide)⟩

/-- Witness for C6: exact splits 60 + 40 against total 100 are accepted
with the supplied amounts. -/
theorem exact_split_spec_witness :
    (demoExact.map CreateExpenseSplitRequest.amount).sum = 100 ∧
    calculateExactSplits envTrue 100 demoExact =
      .ok (demoExact.map (fun s => ⟨s.userUUID, s.amount, 0⟩)) :=
  ⟨by decide, (exact_split_spec envTrue 100 demoExact (by decide) (by decide)).1 (by decide)⟩

/-- Witness for C10: exact splits 150 and -50 sum to the declared total 100
yet are rejected with the positive-amount validation error. -/
theorem exact_split_nonpositive_amount_witness :
    (demoExactBad.map CreateExpenseSplitRequest.amount).sum = 100 ∧
    calculateExactSplits envTrue 100 demoExactBad =
      .error (.validationError "Split amounts must be greater than zero") :=
  ⟨by decide, (exact_split_nonpositive_amount envTrue 100 demoExactBad
    (by decide) (by decide)).1⟩

/-- Witness for C3: percentages 60 and 40 against total 200 are accepted
with amounts 120 and 80. -/
theorem percentage_split_spec_witness :
    (demoPercent.map CreateExpenseSplitRequest.percentage).sum = 100 ∧
    calculatePercentageSplits envTrue 200 demoPercent =
      .ok (demoPercent.map (fun s =>
        ⟨s.userUUID, roundTo 2 (divD (200 * s.percentage) 100), s.percentage⟩)) ∧
    calculatePercentageSplits envTrue 200 demoPercent =
      .ok [⟨"u1", 120, 60⟩, ⟨"u2", 80, 40⟩] :=
  ⟨by decide,
    (percentage_split_spec envTrue 200 demoPercent (by decide) (by decide)).1 (by decide),
    by decide⟩

/-! ## Balance deltas of expenses and settlements -/

/-- The signed balance deltas applied by updateBalancesAfterExpense inside
the transaction: a positive (debit) delta of each split amount for its
user, then one negative (credit) delta of the full expense amount for the
payer. -/
def updateBalancesAfterExpenseDeltas (payer : String) (total : ℚ)
    (splits : List ExpenseSplit) : List (String × ℚ) :=
  splits.map (fun s => (s.userUUID, s.amount)) ++ [(payer, -total)]

/-- The signed balance deltas applied by updateBalancesAfterSettlement:
minus the amount for fromUser, plus the amount for toUser. -/
def updateBalancesAfterSettlementDeltas (fromUser toUser : String) (amount : ℚ) :
    List (String × ℚ) :=
  [(fromUser, -amount), (toUser, amount)]

/-- Sum of the signed deltas in a delta list. -/
def deltaSum (ds : List (String × ℚ)) : ℚ :=
  (ds.map Prod.snd).sum

/-- Applying one signed delta to a per-user ledger, as
balanceRepo.UpdateBalance does for one (group, currency). -/
def applyDelta (ledger : String → ℚ) (d : String × ℚ) : String → ℚ :=
  fun u => if u = d.1 then ledger u + d.2 else ledger u

/-- Applying a transaction's delta list to the ledger, left to right. -/
def applyDeltas (ledger : String → ℚ) (ds : List (String × ℚ)) : String → ℚ :=
  ds.foldl applyDelta ledger

theorem sum_applyDelta (S : Finset String) (ledger : String → ℚ) (d : String × ℚ)
    (hd : d.1 ∈ S) :
    ∑ u ∈ S, applyDelta ledger d u = (∑ u ∈ S, ledger u) + d.2 := by
  have : ∀ u, applyDelta ledger d u = ledger u + if u = d.1 then d.2 else 0 := by
    intro u
    by_cases h : u = d.1 <;> simp [applyDelta, h]
  simp only [this, Finset.sum_add_distrib, Finset.sum_ite_eq', hd, if_pos]

theorem sum_applyDeltas (S : Finset String) :
    ∀ (ds : List (String × ℚ)) (ledger : String → ℚ),
      (∀ p ∈ ds, p.1 ∈ S) →
      ∑ u ∈ S, applyDeltas ledger ds u = (∑ u ∈ S, ledger u) + deltaSum ds := by
  intro ds
  induction ds with
  | nil => intro ledger _; simp [applyDeltas, deltaSum]
  | cons d rest ih =>
    intro ledger hmem
    have h1 : ∑ u ∈ S, applyDeltas ledger (d :: rest) u =
        (∑ u ∈ S, applyDelta ledger d u) + deltaSum rest := by
      simpa [applyDeltas] using ih (applyDelta ledger d)
        (fun p hp => hmem p (List.mem_cons_of_mem d hp))
    rw [h1, sum_applyDelta S ledger d (hmem d (List.mem_cons_self d rest))]
    simp [deltaSum]
    ring

/-- If validateAndCalculateSplits accepts an equal or exact request, the
returned split amounts sum to the declared total. -/
theorem validateAndCalculateSplits_sum (env : Env) (st : String) (total : ℚ)
    (splits : List CreateExpenseSplitRequest) (l : List ExpenseSplit)
    (hst : st = "equal" ∨ st = "exact")
    (hok : validateAndCalculateSplits env st total splits = .ok l) :
    (l.map ExpenseSplit.amount).sum = total := by
  by_cases hlen : splits.length = 0
  · simp [validateAndCalculateSplits, hlen] at hok
  · have hne : splits ≠ [] := fun h => hlen (by simp [h])
    rcases hst with rfl | rfl
    · simp only [validateAndCalculateSplits, hlen, if_false, if_true, ite_true,
        ite_false, reduceIte] at hok
      have := equalSplitsLoop_sum env total
        (roundTo 2 (divD total (splits.length : ℚ))) splits 0 l hne
      simpa using this hok
    · simp only [validateAndCalculateSplits, hlen, if_false, if_true, ite_true,
        ite_false, reduceIte, String.reduceEq] at hok
      rcases hrec : exactSplitsLoop env splits with e | p
      · simp [calculateExactSplits, hrec] at hok
      · obtain ⟨l', t⟩ := p
        by_cases ht : t = total
        · have hsum := exactSplitsLoop_sum env splits l' t hrec
          simp [calculateExactSplits, hrec, ht] at hok
          rw [hok] at hsum
          exact hsum.trans ht
        · simp [calculateExactSplits, hrec, ht] at hok

/-- Applying a sequence of zero-sum transactions leaves the total of all
balances over any user set covering the touched users unchanged. -/
theorem sum_applyDeltas_ops (S : Finset String) :
    ∀ (ops : List (List (String × ℚ))) (ledger : String → ℚ),
      (∀ ds ∈ ops, deltaSum ds = 0 ∧ ∀ p ∈ ds, p.1 ∈ S) →
      ∑ u ∈ S, (ops.foldl applyDeltas ledger) u = ∑ u ∈ S, ledger u := by
  intro ops
  induction ops with
  | nil => intro ledger _; simp
  | cons ds rest ih =>
    intro ledger hops
    have hds := hops ds (List.mem_cons_self ds rest)
    have h1 : (ds :: rest).foldl applyDeltas ledger =
        rest.foldl applyDeltas (applyDeltas ledger ds) := rfl
    rw [h1, ih (applyDeltas ledger ds)
      (fun d hd => hops d (List.mem_cons_of_mem ds hd)),
      sum_applyDeltas S ds ledger hds.2, hds.1, add_zero]

/-- C1 (amended): for every expense accepted with the equal or exact split
strategy, and for every settlement, the signed balance deltas applied
inside the transaction sum to exactly zero; consequently any sequence of
committed zero-sum transactions keeps the sum of all user balances for a
(group, currency) at its initial value of zero. For the percentage
strategy the deltas need not sum to zero (see the counterexample). -/
theorem expense_settlement_deltas_zero_sum :
    (∀ (env : Env) (payer st : String) (total : ℚ)
        (splits : List CreateExpenseSplitRequest) (l : List ExpenseSplit),
        (st = "equal" ∨ st = "exact") →
        validateAndCalculateSplits env st total splits = .ok l →
        deltaSum (updateBalancesAfterExpenseDeltas payer total l) = 0) ∧
    (∀ (fromUser toUser : String) (amount : ℚ),
        deltaSum (updateBalancesAfterSettlementDeltas fromUser toUser amount) = 0) ∧
    (∀ (S : Finset String) (ledger : String → ℚ) (ops : List (List (String × ℚ))),
        (∀ ds ∈ ops, deltaSum ds = 0 ∧ ∀ p ∈ ds, p.1 ∈ S) →
        ∑ u ∈ S, (ops.foldl applyDeltas ledger) u = ∑ u ∈ S, ledger u) := by
  refine ⟨?_, ?_, ?_⟩
  · intro env payer st total splits l hst hok
    have hsum := validateAndCalculateSplits_sum env st total splits l hst hok
    simp only [deltaSum, updateBalancesAfterExpenseDeltas, List.map_append,
      List.sum_append, List.map_map]
    have hcomp : (Prod.snd ∘ fun s : ExpenseSplit => (s.userUUID, s.amount)) =
        ExpenseSplit.amount := rfl
    rw [hcomp, hsum]
    simp
  · intro fromUser toUser amount
    simp [deltaSum, updateBalancesAfterSettlementDeltas]
  · intro S ledger ops hops
    exact sum_applyDeltas_ops S ops ledger hops

/-- Counterexample to C1 as stated: the accepted percentage expense with
total 0.01 and percentages 50/50 rounds each owed amount up to 0.01, so the
transaction's deltas sum to 0.01, not zero. -/
theorem percentage_split_breaks_zero_sum :
    validateAmount (1 / 100) = none ∧
    validateCurrency "USD" = none ∧
    validateAndCalculateSplits envTrue "percentage" (1 / 100) demoPercentTiny =
      .ok [⟨"u1", 1 / 100, 50⟩, ⟨"u2", 1 / 100, 50⟩] ∧
    deltaSum (updateBalancesAfterExpenseDeltas "u1" (1 / 100)
      [⟨"u1", 1 / 100, 50⟩, ⟨"u2", 1 / 100, 50⟩]) = 1 / 100 ∧
    (1 / 100 : ℚ) ≠ 0 :=
  ⟨by decide, by decide, by decide, by decide, by decide⟩

/-- Witness for C1: an equal split of 90 among three members and a
settlement of 20 both produce zero-sum delta lists. -/
theorem expense_settlement_deltas_zero_sum_witness :
    validateAndCalculateSplits envTrue "equal" 90 demoEqual = .ok demoEqualRes ∧
    deltaSum (updateBalancesAfterExpenseDeltas "u1" 90 demoEqualRes) = 0 ∧
    deltaSum (updateBalancesAfterSettlementDeltas "u1" "u2" 20) = 0 :=
  ⟨by decide,
    expense_settlement_deltas_zero_sum.1 envTrue "u1" "equal" 90 demoEqual demoEqualRes
      (Or.inl rfl) (by decide),
    expense_settlement_deltas_zero_sum.2.1 "u1" "u2" 20⟩

/-! ## Balance repository (internal/repository/balance_repository.go)

The user_balances table is a list of records keyed by
(group, user, currency); the MySQL unique key means at most one record per
key, but the lemmas below only need the first matching record, as the SQL
row lookup does. -/

/-- One row of user_balances. Groups and users are identified by their
UUIDs here; the integer surrogate ids are an invertible detail of the SQL
layer. -/
structure BalanceRecord where
  groupUUID : String
  userUUID : String
  balance : ℚ
  currency : String
deriving DecidableEq

/-- The WHERE clause group_id = ? AND user_id = ? AND currency = ?. -/
def isKey (g u cur : String) (r : BalanceRecord) : Bool :=
  decide (r.groupUUID = g ∧ r.userUUID = u ∧ r.currency = cur)

/-- GetByGroupAndUser: the first matching row, or a fresh zero-balance
record when no row exists (absence means zero, not an error). -/
def getByGroupAndUser (table : List BalanceRecord) (g u cur : String) : BalanceRecord :=
  match table.find? (isKey g u cur) with
  | some r => r
  | none => ⟨g, u, 0, cur⟩

/-- The ON DUPLICATE KEY UPDATE arm of UpdateBalance: add the signed amount
to a matching row, leave the others alone. -/
def updFn (g u cur : String) (amount : ℚ) (r : BalanceRecord) : BalanceRecord :=
  if isKey g u cur r then { r with balance := r.balance + amount } else r

/-- UpdateBalance: INSERT a new row carrying the signed amount, or on a
duplicate key add the amount to the stored balance. -/
def updateBalance (table : List BalanceRecord) (g u : String) (amount : ℚ)
    (cur : String) : List BalanceRecord :=
  if table.any (isKey g u cur) then table.map (updFn g u cur amount)
  else table ++ [⟨g, u, amount, cur⟩]

/-- updateBalancesAfterSettlement: subtract the amount from fromUser's
balance, then add it to toUser's balance. -/
def updateBalancesAfterSettlement (table : List BalanceRecord)
    (g fromUser toUser : String) (amount : ℚ) (cur : String) : List BalanceRecord :=
  updateBalance (updateBalance table g fromUser (-amount) cur) g toUser amount cur

/-- The updated row keeps its key, so key predicates see through updFn. -/
theorem isKey_updFn (g u cur g' u' cur' : String) (amount : ℚ) (r : BalanceRecord) :
    isKey g' u' cur' (updFn g u cur amount r) = isKey g' u' cur' r := by
  by_cases h : r.groupUUID = g ∧ r.userUUID = u ∧ r.currency = cur
  · have htrue : isKey g u cur r = true := by simpa [isKey] using h
    have h2 : updFn g u cur amount r = { r with balance := r.balance + amount } := by
      simp [updFn, htrue]
    rw [h2]
    simp [isKey]
  · have hfalse : isKey g u cur r = false := by simpa [isKey] using h
    have h2 : updFn g u cur amount r = r := by simp [updFn, hfalse]
    rw [h2]

/-- Updating a key then reading it back adds the signed amount to the
previous (possibly implicit zero) balance. -/
theorem getByGroupAndUser_updateBalance_self (table : List BalanceRecord)
    (g u cur : String) (amount : ℚ) :
    (getByGroupAndUser (updateBalance table g u amount cur) g u cur).balance =
      (getByGroupAndUser table g u cur).balance + amount := by
  have hcomp : (isKey g u cur) ∘ (updFn g u cur amount) = isKey g u cur :=
    funext (fun r => isKey_updFn g u cur g u cur amount r)
  by_cases hany : table.any (isKey g u cur) = true
  · obtain ⟨r₀, hmem, hkey⟩ := List.any_eq_true.mp hany
    obtain ⟨a, ha⟩ := Option.isSome_iff_exists.mp
      (List.find?_isSome.mpr ⟨r₀, hmem, hkey⟩)
    have hka : isKey g u cur a = true := List.find?_some ha
    simp only [updateBalance, hany, if_true, getByGroupAndUser, List.find?_map,
      hcomp, ha, Option.map_some']
    simp [updFn, hka]
  · have hnone : table.find? (isKey g u cur) = none := by
      rw [List.find?_eq_none]
      intro x hx
      simpa using List.any_eq_false.mp (Bool.eq_false_iff.mpr hany) x hx
    simp only [updateBalance, hany, if_false, getByGroupAndUser, List.find?_append]
    simp [hnone, List.find?, isKey]

/-- Updating one key leaves the row read at any other key unchanged. -/
theorem getByGroupAndUser_updateBalance_other (table : List BalanceRecord)
    (g u cur g' u' cur' : String) (amount : ℚ)
    (hne : ¬(g = g' ∧ u = u' ∧ cur = cur')) :
    getByGroupAndUser (updateBalance table g u amount cur) g' u' cur' =
      getByGroupAndUser table g' u' cur' := by
  have hcomp : (isKey g' u' cur') ∘ (updFn g u cur amount) = isKey g' u' cur' :=
    funext (fun r => isKey_updFn g u cur g' u' cur' amount r)
  by_cases hany : table.any (isKey g u cur) = true
  · simp only [updateBalance, hany, if_true, getByGroupAndUser, List.find?_map, hcomp]
    rcases hfind : table.find? (isKey g' u' cur') with _ | a
    · simp
    · have hka' : isKey g' u' cur' a = true := List.find?_some hfind
      have hka : isKey g u cur a = false := by
        cases hb : isKey g u cur a with
        | false => rfl
        | true =>
          exfalso
          simp only [isKey, decide_eq_true_eq] at hka' hb
          exact hne ⟨hb.1.symm.trans hka'.1, hb.2.1.symm.trans hka'.2.1,
            hb.2.2.symm.trans hka'.2.2⟩
      simp [updFn, hka]
  · simp only [updateBalance, hany, if_false, getByGroupAndUser, List.find?_append]
    rcases hfind : table.find? (isKey g' u' cur') with _ | a
    · have hnew : isKey g' u' cur' ⟨g, u, amount, cur⟩ = false := by
        simp only [isKey, decide_eq_false_iff_not]
        intro h
        exact hne ⟨h.1, h.2.1, h.2.2⟩
      simp [hfind, List.find?, hnew]
    · simp [hfind]

/-! ## Settlement service (CreateSettlement) -/

/-- models.CreateSettlementRequest. -/
structure CreateSettlementRequest where
  groupUUID : String
  fromUserUUID : String
  toUserUUID : String
  amount : ℚ
  currency : String
  description : String
deriving DecidableEq

/-- The currency actually used: the request's currency, defaulting to USD
when empty. -/
def effCurrency (req : CreateSettlementRequest) : String :=
  if req.currency = "" then "USD" else req.currency

/-- CreateSettlement in source order: validate the amount, the (defaulted)
currency and the three UUIDs; reject identical from and to users; resolve
the group and both users; check both memberships; read fromUser's current
balance and reject with InsufficientFund when the requested amount exceeds
it; otherwise apply the two settlement deltas to the balance table. -/
def createSettlement (env : Env) (table : List BalanceRecord)
    (req : CreateSettlementRequest) : Except AppError (List BalanceRecord) :=
  match validateAmount req.amount with
  | some e => .error e
  | none =>
  match validateCurrency (effCurrency req) with
  | some e => .error e
  | none =>
  if ¬ env.validUUID req.groupUUID then
    .error (.invalidValueError "group_uuid" req.groupUUID)
  else if ¬ env.validUUID req.fromUserUUID then
    .error (.invalidValueError "from_user_uuid" req.fromUserUUID)
  else if ¬ env.validUUID req.toUserUUID then
    .error (.invalidValueError "to_user_uuid" req.toUserUUID)
  else if req.fromUserUUID = req.toUserUUID then
    .error (.validationError "From user and to user cannot be the same")
  else if ¬ env.groupExists req.groupUUID then
    .error (.notFoundError "Group")
  else if ¬ env.userExists req.fromUserUUID then
    .error (.notFoundError "User")
  else if ¬ env.userExists req.toUserUUID then
    .error (.notFoundError "User")
  else if ¬ env.isMember req.fromUserUUID then
    .error (.validationError "From user must be a member of the group")
  else if ¬ env.isMember req.toUserUUID then
    .error (.validationError "To user must be a member of the group")
  else
    let fromBalance := getByGroupAndUser table req.groupUUID req.fromUserUUID (effCurrency req)
    if req.amount > fromBalance.balance then
      .error (.insufficientFundError fromBalance.balance req.amount)
    else
      .ok (updateBalancesAfterSettlement table req.groupUUID req.fromUserUUID
        req.toUserUUID req.amount (effCurrency req))

/-! ## Claim theorems: settlements and balance reads -/

/-- C9: when no user_balances row exists for a (group, user, currency),
GetByGroupAndUser returns a zero-balance record for exactly that group,
user and currency rather than an error or an unknown marker. -/
theorem balance_absent_is_zero (table : List BalanceRecord) (g u cur : String)
    (habsent : ∀ r ∈ table, ¬(r.groupUUID = g ∧ r.userUUID = u ∧ r.currency = cur)) :
    getByGroupAndUser table g u cur = ⟨g, u, 0, cur⟩ := by
  have hnone : table.find? (isKey g u cur) = none := by
    rw [List.find?_eq_none]
    intro x hx
    simpa [isKey] using habsent x hx
  unfold getByGroupAndUser
  rw [hnone]

/-- The balance table used by the settlement examples: u1 owes 20 in g1. -/
def demoTable : List BalanceRecord :=
  [⟨"g1", "u1", 20, "USD"⟩]

/-- Witness for C9: a table holding only u1's row yields a zero balance
for u2. -/
theorem balance_absent_is_zero_witness :
    (∀ r ∈ demoTable, ¬(r.groupUUID = "g1" ∧ r.userUUID = "u2" ∧ r.currency = "USD")) ∧
    getByGroupAndUser demoTable "g1" "u2" "USD" = ⟨"g1", "u2", 0, "USD"⟩ :=
  ⟨by decide, balance_absent_is_zero demoTable "g1" "u2" "USD" (by decide)⟩

/-- C5: once a settlement request passes input and membership validation,
it fails with InsufficientFund exactly when the requested amount strictly
exceeds fromUser's raw signed balance in that currency; an amount not
above the balance is accepted and the two settlement deltas are applied,
and settling exactly the current balance drives fromUser's stored balance
to zero. -/
theorem settlement_insufficient_debt (env : Env) (table : List BalanceRecord)
    (req : CreateSettlementRequest)
    (hamt : validateAmount req.amount = none)
    (hcur : validateCurrency (effCurrency req) = none)
    (hg : env.validUUID req.groupUUID = true)
    (hf : env.validUUID req.fromUserUUID = true)
    (ht : env.validUUID req.toUserUUID = true)
    (hdistinct : req.fromUserUUID ≠ req.toUserUUID)
    (hge : env.groupExists req.groupUUID = true)
    (hfe : env.userExists req.fromUserUUID = true)
    (hte : env.userExists req.toUserUUID = true)
    (hfm : env.isMember req.fromUserUUID = true)
    (htm : env.isMember req.toUserUUID = true) :
    (createSettlement env table req =
        .error (.insufficientFundError
          (getByGroupAndUser table req.groupUUID req.fromUserUUID (effCurrency req)).balance
          req.amount) ↔
      (getByGroupAndUser table req.groupUUID req.fromUserUUID (effCurrency req)).balance <
        req.amount) ∧
    (req.amount ≤
        (getByGroupAndUser table req.groupUUID req.fromUserUUID (effCurrency req)).balance →
      createSettlement env table req =
        .ok (updateBalancesAfterSettlement table req.groupUUID req.fromUserUUID
          req.toUserUUID req.amount (effCurrency req))) ∧
    (req.amount =
        (getByGroupAndUser table req.groupUUID req.fromUserUUID (effCurrency req)).balance →
      (getByGroupAndUser
        (updateBalancesAfterSettlement table req.groupUUID req.fromUserUUID
          req.toUserUUID req.amount (effCurrency req))
        req.groupUUID req.fromUserUUID (effCurrency req)).balance = 0) := by
  have hchain : createSettlement env table req =
      (if req.amount >
          (getByGroupAndUser table req.groupUUID req.fromUserUUID (effCurrency req)).balance then
        .error (.insufficientFundError
          (getByGroupAndUser table req.groupUUID req.fromUserUUID (effCurrency req)).balance
          req.amount)
      else
        .ok (updateBalancesAfterSettlement table req.groupUUID req.fromUserUUID
          req.toUserUUID req.amount (effCurrency req))) := by
    simp only [createSettlement, hamt, hcur, hg, hf, ht, hdistinct, hge, hfe, hte,
      hfm, htm, not_true, if_false, ite_false, if_neg, not_false_eq_true]
  refine ⟨?_, ?_, ?_⟩
  · constructor
    · intro herr
      by_contra hle
      rw [hchain, if_neg (by simpa [gt_iff_lt] using hle)] at herr
      cases herr
    · intro hlt
      rw [hchain, if_pos (by simpa [gt_iff_lt] using hlt)]
  · intro hle
    rw [hchain, if_neg (by simpa [gt_iff_lt] using not_lt.mpr hle)]
  · intro heq
    unfold updateBalancesAfterSettlement
    rw [getByGroupAndUser_updateBalance_other _ req.groupUUID req.toUserUUID
        (effCurrency req) req.groupUUID req.fromUserUUID (effCurrency req) req.amount
        (fun hc => hdistinct hc.2.1.symm),
      getByGroupAndUser_updateBalance_self, ← heq]
    ring

/-- A settlement of exactly u1's balance of 20 to u2. -/
def demoSettlement : CreateSettlementRequest :=
  ⟨"g1", "u1", "u2", 20, "USD", "pay back"⟩

/-- Witness for C5: settling exactly the 20 owed succeeds and brings u1's
balance to zero. -/
theorem settlement_insufficient_debt_witness :
    (getByGroupAndUser demoTable "g1" "u1" "USD").balance = 20 ∧
    (createSettlement envTrue demoTable demoSettlement =
      .ok (updateBalancesAfterSettlement demoTable "g1" "u1" "u2" 20 "USD")) ∧
    (getByGroupAndUser
      (updateBalancesAfterSettlement demoTable "g1" "u1" "u2" 20 "USD")
      "g1" "u1" "USD").balance = 0 :=
  ⟨by decide,
    (settlement_insufficient_debt envTrue demoTable demoSettlement (by decide) (by decide)
      rfl rfl rfl (by decide) rfl rfl rfl rfl rfl).2.1 (by decide),
    (settlement_insufficient_debt envTrue demoTable demoSettlement (by decide) (by decide)
      rfl rfl rfl (by decide) rfl rfl rfl rfl rfl).2.2 (by decide)⟩

/-! ## Debt simplification (SimplifyDebts and
generateSettlementSuggestions) -/

/-- models.SettlementSuggestion, with users as UUIDs. -/
structure SettlementSuggestion where
  fromUser : String
  toUser : String
  amount : ℚ
  currency : String
deriving DecidableEq

/-- The linear scan for the index of the largest balance: a strictly
greater balance displaces the current best, so the first maximum wins.
Arguments: remaining entries, best value so far, its index, and the index
of the next entry. -/
def maxIdxAux : List (String × ℚ) → ℚ → ℕ → ℕ → ℕ
  | [], _, best, _ => best
  | x :: xs, bestVal, best, cur =>
    if bestVal < x.2 then maxIdxAux xs x.2 cur (cur + 1)
    else maxIdxAux xs bestVal best (cur + 1)

/-- Index of the first largest balance in a working list, 0 for []. -/
def maxIdx : List (String × ℚ) → ℕ
  | [] => 0
  | x :: xs => maxIdxAux xs x.2 0 1

/-- One greedy iteration of generateSettlementSuggestions, with explicit
fuel standing for the unbounded Go loop: while both working lists are
non-empty, settle the minimum of the largest credit and the largest debt,
subtract it from both, and drop any party whose remainder reaches exactly
zero. Returns the suggestions and the final working lists. -/
def greedyLoop (currency : String) :
    ℕ → List (String × ℚ) → List (String × ℚ) →
      List SettlementSuggestion × List (String × ℚ) × List (String × ℚ)
  | 0, creditorsWork, debtorsWork => ([], creditorsWork, debtorsWork)
  | fuel + 1, creditorsWork, debtorsWork =>
    if creditorsWork = [] ∨ debtorsWork = [] then ([], creditorsWork, debtorsWork)
    else
      let ci := maxIdx creditorsWork
      let di := maxIdx debtorsWork
      let c := creditorsWork.getD ci ("", 0)
      let d := debtorsWork.getD di ("", 0)
      let m := if d.2 < c.2 then d.2 else c.2
      let creditorsNext := if c.2 - m = 0 then creditorsWork.eraseIdx ci
        else creditorsWork.set ci (c.1, c.2 - m)
      let debtorsNext := if d.2 - m = 0 then debtorsWork.eraseIdx di
        else debtorsWork.set di (d.1, d.2 - m)
      let r := greedyLoop currency fuel creditorsNext debtorsNext
      (⟨d.1, c.1, m, currency⟩ :: r.1, r.2)

/-- generateSettlementSuggestions: run the greedy loop on copies of the
working lists. The fuel equals the total number of parties, which the
termination theorem shows is enough for the loop to reach its exit
condition on the positive-balance inputs SimplifyDebts supplies. -/
def generateSettlementSuggestions (creditorsIn debtorsIn : List (String × ℚ))
    (currency : String) : List SettlementSuggestion :=
  (greedyLoop currency (creditorsIn.length + debtorsIn.length) creditorsIn debtorsIn).1

/-- models.DebtSimplification; the three counters are Go ints. -/
structure DebtSimplification where
  originalTransactions : ℤ
  simplifiedTransactions : ℤ
  savings : ℤ
  suggestions : List SettlementSuggestion
deriving DecidableEq

/-- The debtor partition of a balance snapshot: strictly positive
balances, in snapshot order. -/
def debtors (balances : List (String × ℚ)) : List (String × ℚ) :=
  balances.filter (fun b => 0 < b.2)

/-- The creditor partition: strictly negative balances converted to their
absolute values, in snapshot order. -/
def creditors (balances : List (String × ℚ)) : List (String × ℚ) :=
  (balances.filter (fun b => b.2 < 0)).map (fun b => (b.1, |b.2|))

/-- SimplifyDebts on a group's balance snapshot (the service fixes the
currency to USD): partition, count debtors times creditors (at least 1),
run the greedy matching, and clamp the savings at zero. -/
def simplifyDebts (balances : List (String × ℚ)) : DebtSimplification :=
  let ds := debtors balances
  let cs := creditors balances
  let originalTransactions : ℤ := (ds.length : ℤ) * (cs.length : ℤ)
  let originalTransactions := if originalTransactions = 0 then 1 else originalTransactions
  let suggestions := generateSettlementSuggestions cs ds "USD"
  let simplifiedTransactions : ℤ := (suggestions.length : ℤ)
  let savings := originalTransactions - simplifiedTransactions
  let savings := if savings < 0 then 0 else savings
  ⟨originalTransactions, simplifiedTransactions, savings, suggestions⟩

/-- Sum of the balances in a working list. -/
def balSum (l : List (String × ℚ)) : ℚ :=
  (l.map Prod.snd).sum

/-- Sum of the suggested settlement amounts. -/
def sugSum (l : List SettlementSuggestion) : ℚ :=
  (l.map SettlementSuggestion.amount).sum

/-- Sum of the strictly positive balances of a snapshot. -/
def debtorSum (balances : List (String × ℚ)) : ℚ :=
  balSum (debtors balances)

/-- Sum of the absolute values of the strictly negative balances. -/
def creditorAbsSum (balances : List (String × ℚ)) : ℚ :=
  balSum (creditors balances)

theorem maxIdxAux_lt (N : ℕ) :
    ∀ (xs : List (String × ℚ)) (bv : ℚ) (bi ci : ℕ),
      bi < N → ci + xs.length = N → maxIdxAux xs bv bi ci < N := by
  intro xs
  induction xs with
  | nil => intro bv bi ci hbi _; simpa [maxIdxAux] using hbi
  | cons x xs ih =>
    intro bv bi ci hbi hci
    simp only [List.length_cons] at hci
    simp only [maxIdxAux]
    by_cases h : bv < x.2
    · rw [if_pos h]
      exact ih x.2 ci (ci + 1) (by omega) (by omega)
    · rw [if_neg h]
      exact ih bv bi (ci + 1) hbi (by omega)

/-- The scanned maximum index is in range for a non-empty list, so the Go
slice accesses are safe and the default never fires. -/
theorem maxIdx_lt (l : List (String × ℚ)) (h : l ≠ []) : maxIdx l < l.length := by
  cases l with
  | nil => exact absurd rfl h
  | cons x xs =>
    simpa [maxIdx] using maxIdxAux_lt (x :: xs).length xs x.2 0 1 (by simp) (by simp; omega)

theorem getD_mem :
    ∀ (l : List (String × ℚ)) (i : ℕ), i < l.length → l.getD i ("", 0) ∈ l := by
  intro l
  induction l with
  | nil => intro i h; simp at h
  | cons x xs ih =>
    intro i h
    cases i with
    | zero => simp
    | succ n =>
      simp only [List.getD_cons_succ]
      exact List.mem_cons_of_mem x (ih n (by simpa using h))

theorem balSum_set :
    ∀ (l : List (String × ℚ)) (i : ℕ) (p : String × ℚ), i < l.length →
      balSum (l.set i p) = balSum l - (l.getD i ("", 0)).2 + p.2 := by
  intro l
  induction l with
  | nil => intro i p h; simp at h
  | cons x xs ih =>
    intro i p h
    cases i with
    | zero => simp [balSum]; ring
    | succ n =>
      have hn : n < xs.length := by simpa using h
      simp only [List.set_cons_succ, List.getD_cons_succ, balSum, List.map_cons,
        List.sum_cons]
      have := ih n p hn
      simp only [balSum] at this
      rw [this]
      ring

theorem balSum_eraseIdx :
    ∀ (l : List (String × ℚ)) (i : ℕ), i < l.length →
      balSum (l.eraseIdx i) = balSum l - (l.getD i ("", 0)).2 := by
  intro l
  induction l with
  | nil => intro i h; simp at h
  | cons x xs ih =>
    intro i h
    cases i with
    | zero => simp [balSum]
    | succ n =>
      have hn : n < xs.length := by simpa using h
      simp only [List.eraseIdx_cons_succ, List.getD_cons_succ, balSum, List.map_cons,
        List.sum_cons]
      have := ih n hn
      simp only [balSum] at this
      rw [this]
      ring

theorem balSum_nonneg (l : List (String × ℚ)) (h : ∀ p ∈ l, 0 < p.2) :
    0 ≤ balSum l := by
  induction l with
  | nil => simp [balSum]
  | cons x xs ih =>
    have h0 : 0 < x.2 := h x (List.mem_cons_self x xs)
    have h1 : 0 ≤ balSum xs := ih (fun p hp => h p (List.mem_cons_of_mem x hp))
    simp only [balSum, List.map_cons, List.sum_cons]
    have : balSum xs = (xs.map Prod.snd).sum := rfl
    rw [← this]
    linarith

/-- A list of strictly positive balances with zero sum is empty. -/
theorem eq_nil_of_balSum_zero (l : List (String × ℚ)) (h : ∀ p ∈ l, 0 < p.2)
    (hz : balSum l = 0) : l = [] := by
  cases l with
  | nil => rfl
  | cons x xs =>
    exfalso
    have h0 : 0 < x.2 := h x (List.mem_cons_self x xs)
    have h1 : 0 ≤ balSum xs :=
      balSum_nonneg xs (fun p hp => h p (List.mem_cons_of_mem x hp))
    have : balSum (x :: xs) = x.2 + balSum xs := by simp [balSum]
    rw [this] at hz
    linarith

/-- Unfolding one greedy iteration when both working lists are
non-empty. -/
theorem greedyLoop_succ (currency : String) (fuel : ℕ) (cs ds : List (String × ℚ))
    (hc : cs ≠ []) (hd : ds ≠ []) :
    greedyLoop currency (fuel + 1) cs ds =
      ((⟨(ds.getD (maxIdx ds) ("", 0)).1, (cs.getD (maxIdx cs) ("", 0)).1,
          (if (ds.getD (maxIdx ds) ("", 0)).2 < (cs.getD (maxIdx cs) ("", 0)).2 then
            (ds.getD (maxIdx ds) ("", 0)).2 else (cs.getD (maxIdx cs) ("", 0)).2),
          currency⟩ : SettlementSuggestion) ::
        (greedyLoop currency fuel
          (if (cs.getD (maxIdx cs) ("", 0)).2 -
              (if (ds.getD (maxIdx ds) ("", 0)).2 < (cs.getD (maxIdx cs) ("", 0)).2 then
                (ds.getD (maxIdx ds) ("", 0)).2 else (cs.getD (maxIdx cs) ("", 0)).2) = 0 then
            cs.eraseIdx (maxIdx cs)
          else cs.set (maxIdx cs) ((cs.getD (maxIdx cs) ("", 0)).1,
            (cs.getD (maxIdx cs) ("", 0)).2 -
              (if (ds.getD (maxIdx ds) ("", 0)).2 < (cs.getD (maxIdx cs) ("", 0)).2 then
                (ds.getD (maxIdx ds) ("", 0)).2 else (cs.getD (maxIdx cs) ("", 0)).2)))
          (if (ds.getD (maxIdx ds) ("", 0)).2 -
              (if (ds.getD (maxIdx ds) ("", 0)).2 < (cs.getD (maxIdx cs) ("", 0)).2 then
                (ds.getD (maxIdx ds) ("", 0)).2 else (cs.getD (maxIdx cs) ("", 0)).2) = 0 then
            ds.eraseIdx (maxIdx ds)
          else ds.set (maxIdx ds) ((ds.getD (maxIdx ds) ("", 0)).1,
            (ds.getD (maxIdx ds) ("", 0)).2 -
              (if (ds.getD (maxIdx ds) ("", 0)).2 < (cs.getD (maxIdx cs) ("", 0)).2 then
                (ds.getD (maxIdx ds) ("", 0)).2 else (cs.getD (maxIdx cs) ("", 0)).2)))).1,
        (greedyLoop currency fuel
          (if (cs.getD (maxIdx cs) ("", 0)).2 -
              (if (ds.getD (maxIdx ds) ("", 0)).2 < (cs.getD (maxIdx cs) ("", 0)).2 then
                (ds.getD (maxIdx ds) ("", 0)).2 else (cs.getD (maxIdx cs) ("", 0)).2) = 0 then
            cs.eraseIdx (maxIdx cs)
          else cs.set (maxIdx cs) ((cs.getD (maxIdx cs) ("", 0)).1,
            (cs.getD (maxIdx cs) ("", 0)).2 -
              (if (ds.getD (maxIdx ds) ("", 0)).2 < (cs.getD (maxIdx cs) ("", 0)).2 then
                (ds.getD (maxIdx ds) ("", 0)).2 else (cs.getD (maxIdx cs) ("", 0)).2)))
          (if (ds.getD (maxIdx ds) ("", 0)).2 -
              (if (ds.getD (maxIdx ds) ("", 0)).2 < (cs.getD (maxIdx cs) ("", 0)).2 then
                (ds.getD (maxIdx ds) ("", 0)).2 else (cs.getD (maxIdx cs) ("", 0)).2) = 0 then
            ds.eraseIdx (maxIdx ds)
          else ds.set (maxIdx ds) ((ds.getD (maxIdx ds) ("", 0)).1,
            (ds.getD (maxIdx ds) ("", 0)).2 -
              (if (ds.getD (maxIdx ds) ("", 0)).2 < (cs.getD (maxIdx cs) ("", 0)).2 then
                (ds.getD (maxIdx ds) ("", 0)).2 else (cs.getD (maxIdx cs) ("", 0)).2)))).2) := by
  have hcond : ¬(cs = [] ∨ ds = []) := by
    push_neg
    exact ⟨hc, hd⟩
  simp only [greedyLoop]
  rw [if_neg hcond]

/-- One side of a greedy step: subtracting the settled amount from the
selected entry, then dropping it if it reached zero, lowers the balance sum
by exactly that amount, preserves positivity of every remaining entry, and
removes one entry exactly when the selected balance was settled in full. -/
theorem shrink_facts (l : List (String × ℚ)) (x : String × ℚ) (m : ℚ)
    (hi : maxIdx l < l.length) (hx : l.getD (maxIdx l) ("", 0) = x)
    (hpos : ∀ p ∈ l, 0 < p.2) (hmx : m ≤ x.2) :
    balSum (if x.2 - m = 0 then l.eraseIdx (maxIdx l)
      else l.set (maxIdx l) (x.1, x.2 - m)) = balSum l - m ∧
    (∀ p ∈ (if x.2 - m = 0 then l.eraseIdx (maxIdx l)
      else l.set (maxIdx l) (x.1, x.2 - m)), 0 < p.2) ∧
    (if x.2 - m = 0 then l.eraseIdx (maxIdx l)
      else l.set (maxIdx l) (x.1, x.2 - m)).length =
      (if x.2 - m = 0 then l.length - 1 else l.length) := by
  by_cases hz : x.2 - m = 0
  · simp only [if_pos hz]
    refine ⟨?_, ?_, List.length_eraseIdx_of_lt hi⟩
    · rw [balSum_eraseIdx l (maxIdx l) hi, hx]
      have : x.2 = m := by linarith
      rw [this]
    · intro p hp
      exact hpos p (List.eraseIdx_subset l (maxIdx l) hp)
  · simp only [if_neg hz]
    refine ⟨?_, ?_, List.length_set l (maxIdx l) _⟩
    · rw [balSum_set l (maxIdx l) _ hi, hx]
      show balSum l - x.2 + (x.2 - m) = balSum l - m
      ring
    · intro p hp
      rcases List.mem_or_eq_of_mem_set hp with hmem | rfl
      · exact hpos p hmem
      · show 0 < x.2 - m
        have h0 : 0 ≤ x.2 - m := by linarith
        exact lt_of_le_of_ne h0 (Ne.symm hz)

/-- Master invariant of the greedy loop on positive working lists with
enough fuel: the loop reaches its exit condition (one list empty), keeps
every remaining balance positive, and moves a total equal to the drop of
each side's balance sum. -/
theorem greedyLoop_spec (currency : String) :
    ∀ (fuel : ℕ) (cs ds : List (String × ℚ)),
      cs.length + ds.length ≤ fuel →
      (∀ p ∈ cs, 0 < p.2) → (∀ p ∈ ds, 0 < p.2) →
      ((greedyLoop currency fuel cs ds).2.1 = [] ∨
        (greedyLoop currency fuel cs ds).2.2 = []) ∧
      (∀ p ∈ (greedyLoop currency fuel cs ds).2.1, 0 < p.2) ∧
      (∀ p ∈ (greedyLoop currency fuel cs ds).2.2, 0 < p.2) ∧
      sugSum (greedyLoop currency fuel cs ds).1 =
        balSum cs - balSum (greedyLoop currency fuel cs ds).2.1 ∧
      sugSum (greedyLoop currency fuel cs ds).1 =
        balSum ds - balSum (greedyLoop currency fuel cs ds).2.2 := by
  intro fuel
  induction fuel with
  | zero =>
    intro cs ds hlen hcs hds
    have hcs0 : cs = [] := List.length_eq_zero.mp (by omega)
    have hds0 : ds = [] := List.length_eq_zero.mp (by omega)
    subst hcs0
    subst hds0
    simp [greedyLoop, sugSum, balSum]
  | succ fuel ih =>
    intro cs ds hlen hcs hds
    by_cases hstop : cs = [] ∨ ds = []
    · have hred : greedyLoop currency (fuel + 1) cs ds = ([], cs, ds) := by
        simp [greedyLoop, hstop]
      rw [hred]
      exact ⟨hstop, hcs, hds, by simp [sugSum], by simp [sugSum]⟩
    · push_neg at hstop
      obtain ⟨hcne, hdne⟩ := hstop
      have hci : maxIdx cs < cs.length := maxIdx_lt cs hcne
      have hdi : maxIdx ds < ds.length := maxIdx_lt ds hdne
      have hcpos : 0 < (cs.getD (maxIdx cs) ("", 0)).2 :=
        hcs _ (getD_mem cs (maxIdx cs) hci)
      have hdpos : 0 < (ds.getD (maxIdx ds) ("", 0)).2 :=
        hds _ (getD_mem ds (maxIdx ds) hdi)
      rw [greedyLoop_succ currency fuel cs ds hcne hdne]
      set c := cs.getD (maxIdx cs) ("", 0) with hc
      set d := ds.getD (maxIdx ds) ("", 0) with hd
      set m := (if d.2 < c.2 then d.2 else c.2) with hm
      have hmc : m ≤ c.2 := by
        rw [hm]
        by_cases hlt : d.2 < c.2
        · rw [if_pos hlt]
          exact le_of_lt hlt
        · rw [if_neg hlt]
      have hmd : m ≤ d.2 := by
        rw [hm]
        by_cases hlt : d.2 < c.2
        · rw [if_pos hlt]
        · rw [if_neg hlt]
          exact not_lt.mp hlt
      have hzero : c.2 - m = 0 ∨ d.2 - m = 0 := by
        rw [hm]
        by_cases hlt : d.2 < c.2
        · right
          rw [if_pos hlt]
          ring
        · left
          rw [if_neg hlt]
          ring
      set csN := (if c.2 - m = 0 then cs.eraseIdx (maxIdx cs)
        else cs.set (maxIdx cs) (c.1, c.2 - m)) with hcsN
      set dsN := (if d.2 - m = 0 then ds.eraseIdx (maxIdx ds)
        else ds.set (maxIdx ds) (d.1, d.2 - m)) with hdsN
      obtain ⟨hcsum, hcposN, hclen⟩ := shrink_facts cs c m hci hc.symm hcs hmc
      obtain ⟨hdsum, hdposN, hdlen⟩ := shrink_facts ds d m hdi hd.symm hds hmd
      rw [← hcsN] at hcsum hcposN hclen
      rw [← hdsN] at hdsum hdposN hdlen
      have hlenN : csN.length + dsN.length ≤ fuel := by
        have hc' : csN.length ≤ cs.length := by
          rw [hclen]
          split <;> omega
        have hd' : dsN.length ≤ ds.length := by
          rw [hdlen]
          split <;> omega
        rcases hzero with hz | hz
        · have : csN.length = cs.length - 1 := by rw [hclen, if_pos hz]
          omega
        · have : dsN.length = ds.length - 1 := by rw [hdlen, if_pos hz]
          omega
      obtain ⟨hterm, hpos1, hpos2, hsumc, hsumd⟩ := ih csN dsN hlenN hcposN hdposN
      have hsug : sugSum ((⟨d.1, c.1, m, currency⟩ : SettlementSuggestion) ::
          (greedyLoop currency fuel csN dsN).1) =
          m + sugSum (greedyLoop currency fuel csN dsN).1 := by
        simp [sugSum]
      refine ⟨hterm, hpos1, hpos2, ?_, ?_⟩
      · show sugSum ((⟨d.1, c.1, m, currency⟩ : SettlementSuggestion) ::
            (greedyLoop currency fuel csN dsN).1) =
          balSum cs - balSum (greedyLoop currency fuel csN dsN).2.1
        rw [hsug, hsumc, hcsum]
        ring
      · show sugSum ((⟨d.1, c.1, m, currency⟩ : SettlementSuggestion) ::
            (greedyLoop currency fuel csN dsN).1) =
          balSum ds - balSum (greedyLoop currency fuel csN dsN).2.2
        rw [hsug, hsumd, hdsum]
        ring

/-! ## Claim theorems: debt simplification -/

/-- C8: on finite debtor/creditor partitions with strictly positive
remaining amounts, the greedy loop terminates within fuel equal to the
number of parties — each iteration settles the minimum of the two selected
remainders, driving at least one of them to exactly zero and removing that
party — ending with one set empty; and when the debtor and creditor sums
are equal, both sets end empty simultaneously. -/
theorem greedy_loop_terminates (currency : String) (cs ds : List (String × ℚ))
    (hcs : ∀ p ∈ cs, 0 < p.2) (hds : ∀ p ∈ ds, 0 < p.2) :
    ((greedyLoop currency (cs.length + ds.length) cs ds).2.1 = [] ∨
      (greedyLoop currency (cs.length + ds.length) cs ds).2.2 = []) ∧
    (balSum cs = balSum ds →
      (greedyLoop currency (cs.length + ds.length) cs ds).2.1 = [] ∧
      (greedyLoop currency (cs.length + ds.length) cs ds).2.2 = []) := by
  obtain ⟨hterm, hpos1, hpos2, hsumc, hsumd⟩ :=
    greedyLoop_spec currency (cs.length + ds.length) cs ds (le_refl _) hcs hds
  refine ⟨hterm, ?_⟩
  intro heq
  have hbal : balSum (greedyLoop currency (cs.length + ds.length) cs ds).2.1 =
      balSum (greedyLoop currency (cs.length + ds.length) cs ds).2.2 := by
    have h1 := hsumc.symm.trans hsumd
    linarith
  rcases hterm with h1 | h2
  · have hz1 : balSum (greedyLoop currency (cs.length + ds.length) cs ds).2.1 = 0 := by
      rw [h1]
      rfl
    have hz2 : balSum (greedyLoop currency (cs.length + ds.length) cs ds).2.2 = 0 := by
      linarith
    exact ⟨h1, eq_nil_of_balSum_zero _ hpos2 hz2⟩
  · have hz2 : balSum (greedyLoop currency (cs.length + ds.length) cs ds).2.2 = 0 := by
      rw [h2]
      rfl
    have hz1 : balSum (greedyLoop currency (cs.length + ds.length) cs ds).2.1 = 0 := by
      linarith
    exact ⟨eq_nil_of_balSum_zero _ hpos1 hz1, h2⟩

theorem debtors_pos (balances : List (String × ℚ)) :
    ∀ p ∈ debtors balances, 0 < p.2 := by
  intro p hp
  have := (List.mem_filter.mp hp).2
  exact of_decide_eq_true this

theorem creditors_pos (balances : List (String × ℚ)) :
    ∀ p ∈ creditors balances, 0 < p.2 := by
  intro p hp
  obtain ⟨b, hb, hpb⟩ := List.mem_map.mp hp
  have hneg : b.2 < 0 := of_decide_eq_true (List.mem_filter.mp hb).2
  rw [← hpb]
  exact abs_pos.mpr (ne_of_lt hneg)

/-- C4: when the positive (debtor) balances and the absolute negative
(creditor) balances of a snapshot have equal sums, the suggestions that
SimplifyDebts produces by greedy matching have amounts summing to exactly
the debtor sum (equivalently the creditor sum): the matching moves the
whole debt, whatever the maximum-selection order did. -/
theorem simplify_debts_conservation (balances : List (String × ℚ))
    (heq : debtorSum balances = creditorAbsSum balances) :
    sugSum (simplifyDebts balances).suggestions = debtorSum balances := by
  have hcs := creditors_pos balances
  have hds := debtors_pos balances
  obtain ⟨hterm, hpos1, hpos2, hsumc, hsumd⟩ :=
    greedyLoop_spec "USD" ((creditors balances).length + (debtors balances).length)
      (creditors balances) (debtors balances) (le_refl _) hcs hds
  have hbal : balSum (greedyLoop "USD"
        ((creditors balances).length + (debtors balances).length)
        (creditors balances) (debtors balances)).2.1 =
      balSum (greedyLoop "USD"
        ((creditors balances).length + (debtors balances).length)
        (creditors balances) (debtors balances)).2.2 := by
    have h1 := hsumc.symm.trans hsumd
    have h2 : balSum (creditors balances) = balSum (debtors balances) := heq.symm
    linarith
  have hend : balSum (greedyLoop "USD"
      ((creditors balances).length + (debtors balances).length)
      (creditors balances) (debtors balances)).2.2 = 0 := by
    rcases hterm with h1 | h2
    · have hz1 : balSum (greedyLoop "USD"
          ((creditors balances).length + (debtors balances).length)
          (creditors balances) (debtors balances)).2.1 = 0 := by
        rw [h1]
        rfl
      linarith
    · rw [h2]
      rfl
  show sugSum (greedyLoop "USD"
      ((creditors balances).length + (debtors balances).length)
      (creditors balances) (debtors balances)).1 = debtorSum balances
  rw [hsumd, hend]
  show balSum (debtors balances) - 0 = debtorSum balances
  rw [sub_zero]
  rfl

/-- The balance snapshot used in the simplification examples: alice owes
50, bob is owed 30, carol is owed 20. -/
def demoBalances : List (String × ℚ) :=
  [("alice", 50), ("bob", -30), ("carol", -20)]

/-- Witness for C4 on the alice/bob/carol snapshot: the suggestion amounts
sum to the 50 owed. -/
theorem simplify_debts_conservation_witness :
    debtorSum demoBalances = creditorAbsSum demoBalances ∧
    sugSum (simplifyDebts demoBalances).suggestions = debtorSum demoBalances :=
  ⟨by decide, simplify_debts_conservation demoBalances (by decide)⟩

/-- Witness for C8 on the same partition: starting from creditors bob and
carol and debtor alice, the loop ends with both working lists empty. -/
theorem greedy_loop_terminates_witness :
    (∀ p ∈ creditors demoBalances, 0 < p.2) ∧ (∀ p ∈ debtors demoBalances, 0 < p.2) ∧
    (greedyLoop "USD" ((creditors demoBalances).length + (debtors demoBalances).length)
      (creditors demoBalances) (debtors demoBalances)).2.1 = [] ∧
    (greedyLoop "USD" ((creditors demoBalances).length + (debtors demoBalances).length)
      (creditors demoBalances) (debtors demoBalances)).2.2 = [] :=
  ⟨by decide, by decide,
    (greedy_loop_terminates "USD" (creditors demoBalances) (debtors demoBalances)
      (by decide) (by decide)).2 (by decide)⟩

/-- C7 (amended): SimplifyDebts reports originalTransactionCount equal to
debtorCount times creditorCount except that a zero product is replaced by
1, simplifiedTransactionCount equal to the number of suggestions, and
savings equal to their difference clamped at zero. -/
theorem simplify_debts_counts (balances : List (String × ℚ)) :
    (simplifyDebts balances).originalTransactions =
      (if ((debtors balances).length : ℤ) * ((creditors balances).length : ℤ) = 0 then 1
        else ((debtors balances).length : ℤ) * ((creditors balances).length : ℤ)) ∧
    (simplifyDebts balances).simplifiedTransactions =
      ((simplifyDebts balances).suggestions.length : ℤ) ∧
    (simplifyDebts balances).savings =
      max ((simplifyDebts balances).originalTransactions -
        (simplifyDebts balances).simplifiedTransactions) 0 := by
  have hmax : ∀ z : ℤ, (if z < 0 then 0 else z) = max z 0 := by
    intro z
    rcases lt_or_ge z 0 with h | h
    · rw [if_pos h, max_eq_right (le_of_lt h)]
    · rw [if_neg (not_lt.mpr h), max_eq_left h]
  exact ⟨rfl, rfl, hmax _⟩

/-- Counterexample to C7 as stated: on an empty balance snapshot the
debtor and creditor counts are both zero, yet originalTransactionCount is
reported as 1, not 0 times 0. -/
theorem simplify_debts_counts_counterexample :
    (simplifyDebts []).originalTransactions = 1 ∧
    ((debtors ([] : List (String × ℚ))).length : ℤ) *
      ((creditors ([] : List (String × ℚ))).length : ℤ) = 0 ∧
    (1 : ℤ) ≠ 0 :=
  ⟨by decide, by decide, by decide⟩


end ExpenseTracker
